import Mathlib

/-!
Verification of the Reflecta memory & retrieval subsystem.

Shallow embedding of the pure logic of:
- src/lib/token-manager.ts (token-budgeted truncation)
- src/lib/vector-utils.ts (cosine similarity, vector literals, parseVector)
- src/lib/memory/memory-rag-enhanced.ts (query-complexity classifier, hybrid fusion,
  context-retrieval fallback paths)
- src/lib/agents/memory-graph.ts (extract and save stages of the memory pipeline)

External capabilities (tokenizer, LLM calls, database queries, JSON.parse,
the embedding model) are modelled as explicit parameters / environment records;
all in-repository control flow and arithmetic is translated directly from the source.
JavaScript numbers are modelled as exact rationals, plus an explicit tag type
for the non-finite values where the source tests Number.isFinite.
-/

namespace Reflecta

/-- Message role tag mirroring the LangChain message types the token manager
inspects via msg._getType() ("system" / "human" / "ai"). -/
inductive MsgType where
  | system
  | human
  | ai
deriving DecidableEq

/-- A chat message: role tag plus string content (BaseMessage in the source). -/
structure ChatMessage where
  msgType : MsgType
  content : String
deriving DecidableEq

/-- countMessageTokens (src/lib/token-manager.ts): tokenizer count of the content plus a
fixed overhead of 4 tokens per message. The tokenizer (js-tiktoken) is an external
library, so it is abstracted as the parameter tok. -/
def countMessageTokens (tok : String → Nat) (m : ChatMessage) : Nat :=
  tok m.content + 4

/-- countMessagesTokens (src/lib/token-manager.ts): reduce over the list summing
per-message token counts starting from 0. -/
def countMessagesTokens (tok : String → Nat) (messages : List ChatMessage) : Nat :=
  messages.foldl (fun total msg => total + countMessageTokens tok msg) 0

/-- The loop of truncateMessages (src/lib/token-manager.ts lines 104-114): iterate
from newest to oldest (here: over the reversed list), keep each message while the
running total stays within maxTokens, and stop at the first message that would
overflow.  Kept messages are unshifted, i.e. appended in front of the newer ones. -/
def truncateLoop (tok : String → Nat) (rev : List ChatMessage) (total maxTokens : Nat) :
    List ChatMessage :=
  match rev with
  | [] => []
  | m :: rest =>
    let messageTokens := countMessageTokens tok m
    if maxTokens < total + messageTokens then []
    else truncateLoop tok rest (total + messageTokens) maxTokens ++ [m]

/-- truncateMessages (src/lib/token-manager.ts): keeps the most recent messages that
fit within maxTokens, dropping older ones. -/
def truncateMessages (tok : String → Nat) (messages : List ChatMessage) (maxTokens : Nat) :
    List ChatMessage :=
  if messages.isEmpty then [] else truncateLoop tok messages.reverse 0 maxTokens

/-- JavaScript arr.slice(-k): the last k elements for k > 0 (all of them when
k ≥ length); slice(-0) = slice(0) is the whole array. -/
def jsSliceLast {α : Type} (l : List α) (k : Nat) : List α :=
  if k = 0 then l else l.drop (l.length - k)

/-- JavaScript arr.slice(0, -k): everything but the last k elements for k > 0;
slice(0, -0) = slice(0, 0) is the empty array. -/
def jsSliceDropLast {α : Type} (l : List α) (k : Nat) : List α :=
  if k = 0 then [] else l.take (l.length - k)

/-- smartTruncateMessages (src/lib/token-manager.ts lines 130-188): always keep system
messages (truncating only them if they alone reach the budget); guarantee the most
recent keepRecentCount non-system messages (truncating that set if needed); fill the
remaining budget with older messages, spliced in between the system messages and the
recent ones. -/
def smartTruncateMessages (tok : String → Nat) (messages : List ChatMessage)
    (maxTokens keepRecentCount : Nat) : List ChatMessage :=
  if messages.isEmpty then [] else
  let parts := messages.partition (fun m => m.msgType == MsgType.system)
  let systemMessages := parts.1
  let regularMessages := parts.2
  let totalTokens := countMessagesTokens tok systemMessages
  if maxTokens ≤ totalTokens then
    truncateMessages tok systemMessages maxTokens
  else
    let recentMessages := jsSliceLast regularMessages keepRecentCount
    let recentTokens := countMessagesTokens tok recentMessages
    if maxTokens ≤ totalTokens + recentTokens then
      systemMessages ++ truncateMessages tok recentMessages (maxTokens - totalTokens)
    else
      let olderMessages := jsSliceDropLast regularMessages keepRecentCount
      let remainingTokens := maxTokens - (totalTokens + recentTokens)
      if 0 < olderMessages.length ∧ 0 < remainingTokens then
        systemMessages ++ truncateMessages tok olderMessages remainingTokens ++ recentMessages
      else
        systemMessages ++ recentMessages

lemma countMessagesTokens_eq_sum (tok : String → Nat) (l : List ChatMessage) :
    countMessagesTokens tok l = (l.map (countMessageTokens tok)).sum := by
  have aux : ∀ (l : List ChatMessage) (n : Nat),
      l.foldl (fun total msg => total + countMessageTokens tok msg) n
        = n + (l.map (countMessageTokens tok)).sum := by
    intro l
    induction l with
    | nil => intro n; simp
    | cons m rest ih =>
      intro n
      simp [List.foldl_cons, ih, Nat.add_assoc]
  simpa using aux l 0

lemma countMessagesTokens_append (tok : String → Nat) (l₁ l₂ : List ChatMessage) :
    countMessagesTokens tok (l₁ ++ l₂)
      = countMessagesTokens tok l₁ + countMessagesTokens tok l₂ := by
  simp [countMessagesTokens_eq_sum]

lemma countMessagesTokens_reverse (tok : String → Nat) (l : List ChatMessage) :
    countMessagesTokens tok l.reverse = countMessagesTokens tok l := by
  simp [countMessagesTokens_eq_sum, List.sum_reverse]

lemma countMessagesTokens_eq_zero {tok : String → Nat} {l : List ChatMessage}
    (h : countMessagesTokens tok l = 0) : l = [] := by
  cases l with
  | nil => rfl
  | cons m rest =>
    rw [countMessagesTokens_eq_sum] at h
    simp [countMessageTokens] at h

lemma truncateLoop_tokens (tok : String → Nat) (rev : List ChatMessage) :
    ∀ total maxTokens : Nat, total ≤ maxTokens →
      countMessagesTokens tok (truncateLoop tok rev total maxTokens) + total ≤ maxTokens := by
  induction rev with
  | nil =>
    intro total maxTokens h
    simpa [truncateLoop, countMessagesTokens] using h
  | cons m rest ih =>
    intro total maxTokens h
    by_cases hov : maxTokens < total + countMessageTokens tok m
    · simpa [truncateLoop, hov, countMessagesTokens] using h
    · push_neg at hov
      have := ih (total + countMessageTokens tok m) maxTokens hov
      simp only [truncateLoop, if_neg (not_lt.mpr hov)]
      rw [countMessagesTokens_append]
      simp only [countMessagesTokens_eq_sum, List.map, List.sum_cons, List.sum_nil] at this ⊢
      omega

lemma truncateLoop_eq_take (tok : String → Nat) (rev : List ChatMessage) :
    ∀ total maxTokens : Nat,
      ∃ n, truncateLoop tok rev total maxTokens = (rev.take n).reverse := by
  induction rev with
  | nil =>
    intro total maxTokens
    exact ⟨0, by simp [truncateLoop]⟩
  | cons m rest ih =>
    intro total maxTokens
    by_cases hov : maxTokens < total + countMessageTokens tok m
    · exact ⟨0, by simp [truncateLoop, hov]⟩
    · obtain ⟨n, hn⟩ := ih (total + countMessageTokens tok m) maxTokens
      refine ⟨n + 1, ?_⟩
      simp [truncateLoop, hov, hn, List.take_succ_cons]

lemma truncateLoop_all (tok : String → Nat) (rev : List ChatMessage) :
    ∀ total maxTokens : Nat,
      total + countMessagesTokens tok rev ≤ maxTokens →
      truncateLoop tok rev total maxTokens = rev.reverse := by
  induction rev with
  | nil => intro total maxTokens _; simp [truncateLoop]
  | cons m rest ih =>
    intro total maxTokens h
    rw [countMessagesTokens_eq_sum] at h
    simp only [List.map, List.sum_cons] at h
    have hm : ¬ maxTokens < total + countMessageTokens tok m := by omega
    have hrest : total + countMessageTokens tok m + countMessagesTokens tok rest ≤ maxTokens := by
      rw [countMessagesTokens_eq_sum]; omega
    simp [truncateLoop, hm, ih _ _ hrest]

lemma truncateMessages_tokens (tok : String → Nat) (messages : List ChatMessage)
    (maxTokens : Nat) :
    countMessagesTokens tok (truncateMessages tok messages maxTokens) ≤ maxTokens := by
  unfold truncateMessages
  by_cases h : messages.isEmpty
  · simp [h, countMessagesTokens]
  · rw [if_neg h]
    have := truncateLoop_tokens tok messages.reverse 0 maxTokens (Nat.zero_le _)
    omega

lemma truncateMessages_suffix (tok : String → Nat) (messages : List ChatMessage)
    (maxTokens : Nat) :
    truncateMessages tok messages maxTokens <:+ messages := by
  unfold truncateMessages
  by_cases h : messages.isEmpty
  · simp [h]
  · rw [if_neg h]
    obtain ⟨n, hn⟩ := truncateLoop_eq_take tok messages.reverse 0 maxTokens
    rw [hn]
    refine ⟨(messages.reverse.drop n).reverse, ?_⟩
    rw [← List.reverse_append, List.take_append_drop, List.reverse_reverse]

lemma truncateMessages_of_fits (tok : String → Nat) (messages : List ChatMessage)
    (maxTokens : Nat) (h : countMessagesTokens tok messages ≤ maxTokens) :
    truncateMessages tok messages maxTokens = messages := by
  unfold truncateMessages
  by_cases he : messages.isEmpty
  · simp [he]
    cases messages with
    | nil => rfl
    | cons a l => simp at he
  · rw [if_neg he]
    have : (0 : Nat) + countMessagesTokens tok messages.reverse ≤ maxTokens := by
      rw [countMessagesTokens_reverse]; omega
    rw [truncateLoop_all tok messages.reverse 0 maxTokens this, List.reverse_reverse]

lemma jsSliceLast_suffix {α : Type} (l : List α) (k : Nat) : jsSliceLast l k <:+ l := by
  unfold jsSliceLast
  by_cases h : k = 0
  · simp [h]
  · rw [if_neg h]; exact List.drop_suffix _ _

lemma jsSlice_append {α : Type} (l : List α) (k : Nat) :
    jsSliceDropLast l k ++ jsSliceLast l k = l := by
  unfold jsSliceDropLast jsSliceLast
  by_cases h : k = 0
  · simp [h]
  · rw [if_neg h, if_neg h, List.take_append_drop]

lemma smartTruncateMessages_eq (tok : String → Nat) (messages : List ChatMessage)
    (maxTokens k : Nat) (hE : ¬ messages.isEmpty = true) :
    smartTruncateMessages tok messages maxTokens k =
      (let systemMessages := messages.filter (fun m => m.msgType == MsgType.system)
      let regularMessages := messages.filter (fun m => !(m.msgType == MsgType.system))
      let totalTokens := countMessagesTokens tok systemMessages
      if maxTokens ≤ totalTokens then
        truncateMessages tok systemMessages maxTokens
      else
        let recentMessages := jsSliceLast regularMessages k
        let recentTokens := countMessagesTokens tok recentMessages
        if maxTokens ≤ totalTokens + recentTokens then
          systemMessages ++ truncateMessages tok recentMessages (maxTokens - totalTokens)
        else
          let olderMessages := jsSliceDropLast regularMessages k
          let remainingTokens := maxTokens - (totalTokens + recentTokens)
          if 0 < olderMessages.length ∧ 0 < remainingTokens then
            systemMessages ++ truncateMessages tok olderMessages remainingTokens ++
              recentMessages
          else
            systemMessages ++ recentMessages) := by
  unfold smartTruncateMessages
  rw [if_neg hE]
  simp only [List.partition_eq_filter_filter, Function.comp_def]

/-- C1: for every history, budget and keepRecent = 4, the smart-truncated output stays
within the token budget whenever the system messages alone are under budget; when the
system messages alone meet or exceed the budget the output is a truncation (suffix) of
the system messages only; and whenever the system messages plus the most recent
min(4, number of non-system messages) non-system messages fit within the budget, all of
those recent messages appear (as a suffix) in the output. -/
theorem smartTruncateMessages_budget (tok : String → Nat) (messages : List ChatMessage)
    (maxTokens : Nat) :
    (countMessagesTokens tok (messages.filter (fun m => m.msgType == MsgType.system)) <
        maxTokens →
      countMessagesTokens tok (smartTruncateMessages tok messages maxTokens 4) ≤ maxTokens) ∧
    (maxTokens ≤
        countMessagesTokens tok (messages.filter (fun m => m.msgType == MsgType.system)) →
      smartTruncateMessages tok messages maxTokens 4 <:+
        messages.filter (fun m => m.msgType == MsgType.system)) ∧
    (countMessagesTokens tok (messages.filter (fun m => m.msgType == MsgType.system)) +
        countMessagesTokens tok
          (jsSliceLast (messages.filter (fun m => !(m.msgType == MsgType.system))) 4) ≤
        maxTokens →
      jsSliceLast (messages.filter (fun m => !(m.msgType == MsgType.system))) 4 <:+
        smartTruncateMessages tok messages maxTokens 4) := by
  by_cases hE : messages.isEmpty
  · have hnil : messages = [] := by
      cases messages with
      | nil => rfl
      | cons a l => simp [List.isEmpty] at hE
    subst hnil
    refine ⟨fun _ => ?_, fun _ => ?_, fun _ => ?_⟩ <;>
      simp [smartTruncateMessages, jsSliceLast, countMessagesTokens]
  · rw [smartTruncateMessages_eq tok messages maxTokens 4 hE]
    simp only []
    set sys := messages.filter (fun m => m.msgType == MsgType.system) with hsys
    set reg := messages.filter (fun m => !(m.msgType == MsgType.system)) with hreg
    set recent := jsSliceLast reg 4 with hrecent
    set older := jsSliceDropLast reg 4 with holder
    by_cases h1 : maxTokens ≤ countMessagesTokens tok sys
    · rw [if_pos h1]
      refine ⟨fun _ => truncateMessages_tokens tok sys maxTokens, fun _ =>
        truncateMessages_suffix tok sys maxTokens, fun h3 => ?_⟩
      have hz : countMessagesTokens tok recent = 0 := by omega
      rw [countMessagesTokens_eq_zero hz]
      exact List.nil_suffix
    · rw [if_neg h1]
      by_cases h2 : maxTokens ≤ countMessagesTokens tok sys + countMessagesTokens tok recent
      · rw [if_pos h2]
        refine ⟨fun _ => ?_, fun hc => absurd hc h1, fun h3 => ?_⟩
        · rw [countMessagesTokens_append]
          have := truncateMessages_tokens tok recent (maxTokens - countMessagesTokens tok sys)
          omega
        · have hfits : countMessagesTokens tok recent ≤
              maxTokens - countMessagesTokens tok sys := by omega
          rw [truncateMessages_of_fits tok recent _ hfits]
          exact List.suffix_append _ _
      · rw [if_neg h2]
        by_cases h3 : 0 < older.length ∧
            0 < maxTokens - (countMessagesTokens tok sys + countMessagesTokens tok recent)
        · rw [if_pos h3]
          refine ⟨fun _ => ?_, fun hc => absurd hc h1, fun _ => ?_⟩
          · rw [countMessagesTokens_append, countMessagesTokens_append]
            have := truncateMessages_tokens tok older
              (maxTokens - (countMessagesTokens tok sys + countMessagesTokens tok recent))
            omega
          · rw [List.append_assoc]
            exact (List.suffix_append _ _).trans (List.suffix_append _ _)
        · rw [if_neg h3]
          refine ⟨fun _ => ?_, fun hc => absurd hc h1, fun _ => List.suffix_append _ _⟩
          rw [countMessagesTokens_append]
          omega

lemma jsSliceDropLast_sublist {α : Type} (l : List α) (k : Nat) :
    List.Sublist (jsSliceDropLast l k) l := by
  unfold jsSliceDropLast
  by_cases h : k = 0
  · simp [h]
  · rw [if_neg h]; exact List.take_sublist _ _

lemma filter_sys_of_sublist_sys {messages l : List ChatMessage}
    (h : List.Sublist l (messages.filter (fun m => m.msgType == MsgType.system))) :
    l.filter (fun m => m.msgType == MsgType.system) = l :=
  List.filter_eq_self.mpr fun _ hm => (List.mem_filter.mp (h.subset hm)).2

lemma filter_reg_of_sublist_sys {messages l : List ChatMessage}
    (h : List.Sublist l (messages.filter (fun m => m.msgType == MsgType.system))) :
    l.filter (fun m => !(m.msgType == MsgType.system)) = [] := by
  rw [List.filter_eq_nil_iff]
  intro m hm
  have h2 := (List.mem_filter.mp (h.subset hm)).2
  simp [h2]

lemma filter_reg_of_sublist_reg {messages l : List ChatMessage}
    (h : List.Sublist l (messages.filter (fun m => !(m.msgType == MsgType.system)))) :
    l.filter (fun m => !(m.msgType == MsgType.system)) = l :=
  List.filter_eq_self.mpr fun _ hm => (List.mem_filter.mp (h.subset hm)).2

lemma filter_sys_of_sublist_reg {messages l : List ChatMessage}
    (h : List.Sublist l (messages.filter (fun m => !(m.msgType == MsgType.system)))) :
    l.filter (fun m => m.msgType == MsgType.system) = [] := by
  rw [List.filter_eq_nil_iff]
  intro m hm
  have h2 := (List.mem_filter.mp (h.subset hm)).2
  simp at h2
  simp [h2]

/-- C9 (amended): smart truncation preserves the relative order separately within the
system messages and within the non-system messages: each filtered projection of the
output is a sublist of the corresponding filtered projection of the input.  (Cross-type
order is not preserved in general, because system messages are moved to the front; see
the counterexample.) -/
theorem smartTruncateMessages_order (tok : String → Nat) (messages : List ChatMessage)
    (maxTokens k : Nat) :
    List.Sublist
      ((smartTruncateMessages tok messages maxTokens k).filter
        (fun m => m.msgType == MsgType.system))
      (messages.filter (fun m => m.msgType == MsgType.system)) ∧
    List.Sublist
      ((smartTruncateMessages tok messages maxTokens k).filter
        (fun m => !(m.msgType == MsgType.system)))
      (messages.filter (fun m => !(m.msgType == MsgType.system))) := by
  by_cases hE : messages.isEmpty
  · have hnil : messages = [] := by
      cases messages with
      | nil => rfl
      | cons a l => simp [List.isEmpty] at hE
    subst hnil
    constructor <;> simp [smartTruncateMessages]
  · rw [smartTruncateMessages_eq tok messages maxTokens k hE]
    simp only []
    set sys := messages.filter (fun m => m.msgType == MsgType.system) with hsys
    set reg := messages.filter (fun m => !(m.msgType == MsgType.system)) with hreg
    have hrecent : List.Sublist (jsSliceLast reg k) reg := (jsSliceLast_suffix reg k).sublist
    by_cases h1 : maxTokens ≤ countMessagesTokens tok sys
    · rw [if_pos h1]
      have hsub : List.Sublist (truncateMessages tok sys maxTokens) sys :=
        (truncateMessages_suffix tok sys maxTokens).sublist
      constructor
      · rw [filter_sys_of_sublist_sys hsub]; exact hsub
      · rw [filter_reg_of_sublist_sys hsub]; exact List.nil_sublist _
    · rw [if_neg h1]
      by_cases h2 : maxTokens ≤
          countMessagesTokens tok sys + countMessagesTokens tok (jsSliceLast reg k)
      · rw [if_pos h2]
        have htr : List.Sublist
            (truncateMessages tok (jsSliceLast reg k) (maxTokens - countMessagesTokens tok sys))
            reg :=
          ((truncateMessages_suffix tok _ _).sublist).trans hrecent
        constructor
        · rw [List.filter_append, filter_sys_of_sublist_sys (List.Sublist.refl sys),
            filter_sys_of_sublist_reg htr, List.append_nil]
        · rw [List.filter_append, filter_reg_of_sublist_sys (List.Sublist.refl sys),
            filter_reg_of_sublist_reg htr, List.nil_append]
          exact htr
      · rw [if_neg h2]
        by_cases h3 : 0 < (jsSliceDropLast reg k).length ∧
            0 < maxTokens - (countMessagesTokens tok sys +
              countMessagesTokens tok (jsSliceLast reg k))
        · rw [if_pos h3]
          have hto : List.Sublist
              (truncateMessages tok (jsSliceDropLast reg k)
                (maxTokens - (countMessagesTokens tok sys +
                  countMessagesTokens tok (jsSliceLast reg k))))
              (jsSliceDropLast reg k) :=
            (truncateMessages_suffix tok _ _).sublist
          have htor : List.Sublist
              (truncateMessages tok (jsSliceDropLast reg k)
                (maxTokens - (countMessagesTokens tok sys +
                  countMessagesTokens tok (jsSliceLast reg k))))
              reg :=
            hto.trans (jsSliceDropLast_sublist reg k)
          have hconcat : List.Sublist
              (truncateMessages tok (jsSliceDropLast reg k)
                (maxTokens - (countMessagesTokens tok sys +
                  countMessagesTokens tok (jsSliceLast reg k))) ++ jsSliceLast reg k)
              reg := by
            have := hto.append_right (jsSliceLast reg k)
            rwa [jsSlice_append reg k] at this
          constructor
          · rw [List.append_assoc, List.filter_append,
              filter_sys_of_sublist_sys (List.Sublist.refl sys), List.filter_append,
              filter_sys_of_sublist_reg htor, filter_sys_of_sublist_reg hrecent]
            simp
          · rw [List.append_assoc, List.filter_append,
              filter_reg_of_sublist_sys (List.Sublist.refl sys), List.filter_append,
              filter_reg_of_sublist_reg htor, filter_reg_of_sublist_reg hrecent,
              List.nil_append]
            exact hconcat
        · rw [if_neg h3]
          constructor
          · rw [List.filter_append, filter_sys_of_sublist_sys (List.Sublist.refl sys),
              filter_sys_of_sublist_reg hrecent, List.append_nil]
          · rw [List.filter_append, filter_reg_of_sublist_sys (List.Sublist.refl sys),
              filter_reg_of_sublist_reg hrecent, List.nil_append]
            exact hrecent

/-- An input where a non-system message precedes a system message. -/
def cmHuman : ChatMessage := ⟨MsgType.human, "a"⟩

/-- A system message placed after a non-system message in the counterexample input. -/
def cmSystem : ChatMessage := ⟨MsgType.system, "s"⟩

/-- C9 counterexample: on the input [human "a", system "s"] with a large budget, smart
truncation returns [system "s", human "a"], which is not a sublist of the input: the
pair (human, system) appears in the opposite relative order, refuting the claim that
the output always preserves the input's relative order with no reordering of system
messages relative to non-system messages. -/
theorem smartTruncateMessages_order_counterexample :
    smartTruncateMessages String.length [cmHuman, cmSystem] 100 4 = [cmSystem, cmHuman] ∧
    ¬ List.Sublist (smartTruncateMessages String.length [cmHuman, cmSystem] 100 4)
        [cmHuman, cmSystem] := by
  constructor <;> decide

/-- Concrete history used to witness the C1 budget theorem. -/
def exMsgs : List ChatMessage :=
  [⟨MsgType.system, "sys"⟩, ⟨MsgType.human, "hello"⟩, ⟨MsgType.ai, "world"⟩]

/-- Witness for C1 at a concrete history and budget: the hypotheses of
smartTruncateMessages_budget are discharged by computation. -/
theorem smartTruncateMessages_budget_witness :
    countMessagesTokens String.length
        (exMsgs.filter (fun m => m.msgType == MsgType.system)) < 100 ∧
    countMessagesTokens String.length (smartTruncateMessages String.length exMsgs 100 4) ≤
      100 ∧
    jsSliceLast (exMsgs.filter (fun m => !(m.msgType == MsgType.system))) 4 <:+
      smartTruncateMessages String.length exMsgs 100 4 :=
  ⟨by decide, (smartTruncateMessages_budget String.length exMsgs 100).1 (by decide),
    (smartTruncateMessages_budget String.length exMsgs 100).2.2 (by decide)⟩

/-- Approximation of the JavaScript regex class backslash-s used by split. -/
def isJsWs (c : Char) : Bool := c.isWhitespace

/-- JavaScript String.prototype.trim at the character-list level: drop whitespace
from both ends. -/
def trimChars (cs : List Char) : List Char :=
  ((cs.dropWhile isJsWs).reverse.dropWhile isJsWs).reverse

/-- Helper splitting a whitespace-free-at-the-ends character list into its maximal
runs of non-whitespace characters (the behaviour of split on a whitespace-run regex). -/
def wordsAux : List Char → List Char → List (List Char)
  | [], cur => if cur.isEmpty then [] else [cur.reverse]
  | c :: rest, cur =>
    if isJsWs c then
      if cur.isEmpty then wordsAux rest [] else cur.reverse :: wordsAux rest []
    else wordsAux rest (c :: cur)

/-- query.trim().split(on a whitespace-run regex) from analyzeQueryComplexity
(src/lib/memory/memory-rag-enhanced.ts): an empty trimmed string yields a single
empty token (JavaScript split never returns an empty array), otherwise the maximal
non-whitespace runs. -/
def splitWsWords (s : String) : List String :=
  let t := trimChars s.toList
  if t.isEmpty then [""] else (wordsAux t []).map (fun w => String.mk w)

/-- Whitespace-token count of a query, i.e. the length of the split. -/
def wordCount (s : String) : Nat := (splitWsWords s).length

/-- Query complexity tier. -/
inductive Complexity where
  | simple
  | medium
  | complex
deriving DecidableEq

/-- Retrieval-parameter profile returned by analyzeQueryComplexity. -/
structure QueryParams where
  complexity : Complexity
  tokenCount : Nat
  semanticThreshold : ℚ
  keywordThreshold : ℚ
  maxResults : Nat
deriving DecidableEq

/-- analyzeQueryComplexity (src/lib/memory/memory-rag-enhanced.ts, enhanced version with
context compression, lines 297-340): tier by whitespace-token count with thresholds
0.78 / 0.75 / 0.72 and result caps 2 / 4 / 6. -/
def analyzeQueryComplexity (query : String) : QueryParams :=
  let tokenCount := wordCount query
  if tokenCount ≤ 5 then
    ⟨Complexity.simple, tokenCount, 0.78, 0.15, 2⟩
  else if tokenCount ≤ 15 then
    ⟨Complexity.medium, tokenCount, 0.75, 0.1, 4⟩
  else
    ⟨Complexity.complex, tokenCount, 0.72, 0.08, 6⟩

/-- analyzeQueryComplexity (src/lib/memory/memory-rag-enhanced.ts, first version,
lines 20-63): same tiers with thresholds 0.65 / 0.60 / 0.55 and caps 3 / 5 / 7. -/
def analyzeQueryComplexityBase (query : String) : QueryParams :=
  let tokenCount := wordCount query
  if tokenCount ≤ 5 then
    ⟨Complexity.simple, tokenCount, 0.65, 0.1, 3⟩
  else if tokenCount ≤ 15 then
    ⟨Complexity.medium, tokenCount, 0.60, 0.05, 5⟩
  else
    ⟨Complexity.complex, tokenCount, 0.55, 0.03, 7⟩

/-- C2: the classifier assigns Simple / Medium / Complex exactly on whitespace-token
counts ≤5 / 6-15 / >15 (in both versions of analyzeQueryComplexity), and across any
queries of 4, 10 and 20 words the semantic threshold is non-increasing while the
result cap is non-decreasing. -/
theorem analyzeQueryComplexity_spec :
    (∀ q : String,
      ((analyzeQueryComplexity q).complexity = Complexity.simple ↔ wordCount q ≤ 5) ∧
      ((analyzeQueryComplexity q).complexity = Complexity.medium ↔
        6 ≤ wordCount q ∧ wordCount q ≤ 15) ∧
      ((analyzeQueryComplexity q).complexity = Complexity.complex ↔ 15 < wordCount q) ∧
      (analyzeQueryComplexityBase q).complexity = (analyzeQueryComplexity q).complexity) ∧
    (∀ q4 q10 q20 : String,
      wordCount q4 = 4 → wordCount q10 = 10 → wordCount q20 = 20 →
      ((analyzeQueryComplexity q10).semanticThreshold ≤
          (analyzeQueryComplexity q4).semanticThreshold ∧
        (analyzeQueryComplexity q20).semanticThreshold ≤
          (analyzeQueryComplexity q10).semanticThreshold ∧
        (analyzeQueryComplexity q4).maxResults ≤ (analyzeQueryComplexity q10).maxResults ∧
        (analyzeQueryComplexity q10).maxResults ≤ (analyzeQueryComplexity q20).maxResults) ∧
      ((analyzeQueryComplexityBase q10).semanticThreshold ≤
          (analyzeQueryComplexityBase q4).semanticThreshold ∧
        (analyzeQueryComplexityBase q20).semanticThreshold ≤
          (analyzeQueryComplexityBase q10).semanticThreshold ∧
        (analyzeQueryComplexityBase q4).maxResults ≤
          (analyzeQueryComplexityBase q10).maxResults ∧
        (analyzeQueryComplexityBase q10).maxResults ≤
          (analyzeQueryComplexityBase q20).maxResults)) := by
  have hcases : ∀ q : String,
      (wordCount q ≤ 5 ∧
        analyzeQueryComplexity q =
          ⟨Complexity.simple, wordCount q, 0.78, 0.15, 2⟩ ∧
        analyzeQueryComplexityBase q =
          ⟨Complexity.simple, wordCount q, 0.65, 0.1, 3⟩) ∨
      ((6 ≤ wordCount q ∧ wordCount q ≤ 15) ∧
        analyzeQueryComplexity q =
          ⟨Complexity.medium, wordCount q, 0.75, 0.1, 4⟩ ∧
        analyzeQueryComplexityBase q =
          ⟨Complexity.medium, wordCount q, 0.60, 0.05, 5⟩) ∨
      (15 < wordCount q ∧
        analyzeQueryComplexity q =
          ⟨Complexity.complex, wordCount q, 0.72, 0.08, 6⟩ ∧
        analyzeQueryComplexityBase q =
          ⟨Complexity.complex, wordCount q, 0.55, 0.03, 7⟩) := by
    intro q
    by_cases h5 : wordCount q ≤ 5
    · exact Or.inl ⟨h5, by simp [analyzeQueryComplexity, h5],
        by simp [analyzeQueryComplexityBase, h5]⟩
    · by_cases h15 : wordCount q ≤ 15
      · exact Or.inr (Or.inl ⟨⟨by omega, h15⟩,
          by simp [analyzeQueryComplexity, h5, h15],
          by simp [analyzeQueryComplexityBase, h5, h15]⟩)
      · exact Or.inr (Or.inr ⟨by omega,
          by simp [analyzeQueryComplexity, h5, h15],
          by simp [analyzeQueryComplexityBase, h5, h15]⟩)
  constructor
  · intro q
    rcases hcases q with ⟨h, he, hb⟩ | ⟨h, he, hb⟩ | ⟨h, he, hb⟩ <;>
      rw [he, hb] <;>
      refine ⟨?_, ?_, ?_, rfl⟩ <;> simp <;> omega
  · intro q4 q10 q20 h4 h10 h20
    have e4 := hcases q4
    have e10 := hcases q10
    have e20 := hcases q20
    rw [h4] at e4; rw [h10] at e10; rw [h20] at e20
    simp only [show ¬(6 ≤ (4:Nat) ∧ 4 ≤ 15) ∨ True from Or.inr trivial] at *
    rcases e4 with ⟨_, he4, hb4⟩ | ⟨h, _, _⟩ | ⟨h, _, _⟩ <;> try omega
    rcases e10 with ⟨h, _, _⟩ | ⟨_, he10, hb10⟩ | ⟨h, _, _⟩ <;> try omega
    rcases e20 with ⟨h, _, _⟩ | ⟨⟨_, h⟩, _, _⟩ | ⟨_, he20, hb20⟩ <;> try omega
    rw [he4, hb4, he10, hb10, he20, hb20]
    refine ⟨⟨?_, ?_, ?_, ?_⟩, ⟨?_, ?_, ?_, ?_⟩⟩ <;> norm_num

/-- Witness for C2 at concrete 4-, 10- and 20-word queries. -/
theorem analyzeQueryComplexity_spec_witness :
    wordCount "a b c d" = 4 ∧
    wordCount "a b c d e f g h i j" = 10 ∧
    wordCount "a b c d e f g h i j k l m n o p q r s t" = 20 ∧
    ((analyzeQueryComplexity "a b c d e f g h i j").semanticThreshold ≤
        (analyzeQueryComplexity "a b c d").semanticThreshold ∧
      (analyzeQueryComplexity "a b c d e f g h i j k l m n o p q r s t").semanticThreshold ≤
        (analyzeQueryComplexity "a b c d e f g h i j").semanticThreshold ∧
      (analyzeQueryComplexity "a b c d").maxResults ≤
        (analyzeQueryComplexity "a b c d e f g h i j").maxResults ∧
      (analyzeQueryComplexity "a b c d e f g h i j").maxResults ≤
        (analyzeQueryComplexity "a b c d e f g h i j k l m n o p q r s t").maxResults) :=
  ⟨by decide, by decide, by decide,
    ((analyzeQueryComplexity_spec.2 "a b c d" "a b c d e f g h i j"
      "a b c d e f g h i j k l m n o p q r s t" (by decide) (by decide) (by decide)).1)⟩

/-- The dot-product accumulator of the cosineSimilarity loop
(src/lib/vector-utils.ts lines 21-27), over exact rationals. -/
def dotProduct (a b : List ℚ) : ℚ := (List.zipWith (fun x y => x * y) a b).sum

/-- The squared-norm accumulator (normA / normB) of the cosineSimilarity loop. -/
def sumSq (a : List ℚ) : ℚ := (a.map (fun x => x * x)).sum

lemma sumSq_nonneg (a : List ℚ) : 0 ≤ sumSq a := by
  apply List.sum_nonneg
  intro x hx
  obtain ⟨y, _, rfl⟩ := List.mem_map.mp hx
  exact mul_self_nonneg y

lemma dotProduct_comm (a b : List ℚ) : dotProduct a b = dotProduct b a := by
  unfold dotProduct
  rw [List.zipWith_comm_of_comm]
  intro x y
  ring

lemma dotProduct_sq_le (a : List ℚ) : ∀ b : List ℚ,
    dotProduct a b ^ 2 ≤ sumSq a * sumSq b := by
  induction a with
  | nil => intro b; simp [dotProduct, sumSq]
  | cons x as ih =>
    intro b
    cases b with
    | nil => simp [dotProduct, sumSq]
    | cons y bs =>
      have h := ih bs
      have hA := sumSq_nonneg as
      have hB := sumSq_nonneg bs
      simp only [dotProduct, sumSq, List.zipWith_cons_cons, List.map_cons, List.sum_cons] at h hA hB ⊢
      set S := (List.zipWith (fun x y => x * y) as bs).sum with hS
      set A := (List.map (fun x => x * x) as).sum with hA2
      set B := (List.map (fun x => x * x) bs).sum with hB2
      have h1 : (2*(x*y)*S)^2 ≤ ((x*x)*B + (y*y)*A)^2 := by
        have hnn : (0:ℚ) ≤ 4*(x*y)^2 := by have := sq_nonneg (x*y); linarith
        have h2 : 4*(x*y)^2 * S^2 ≤ 4*(x*y)^2 * (A*B) :=
          mul_le_mul_of_nonneg_left h hnn
        nlinarith [sq_nonneg ((x*x)*B - (y*y)*A)]
      have hp : 0 ≤ (x*x)*B + (y*y)*A :=
        add_nonneg (mul_nonneg (mul_self_nonneg x) hB) (mul_nonneg (mul_self_nonneg y) hA)
      have habs : 2*(x*y)*S ≤ (x*x)*B + (y*y)*A := by nlinarith [h1, hp]
      nlinarith [habs, h]

/-- cosineSimilarity (src/lib/vector-utils.ts lines 12-34): 0 when either vector is
empty or the lengths differ; 0 when either accumulated norm is 0; otherwise
dot / (sqrt(normA) * sqrt(normB)).  Components are exact rationals, the final value a
real number (Math.sqrt). -/
noncomputable def cosineSimilarity (a b : List ℚ) : ℝ :=
  if a.length = 0 ∨ b.length = 0 ∨ a.length ≠ b.length then 0
  else if sumSq a = 0 ∨ sumSq b = 0 then 0
  else (dotProduct a b : ℝ) / (Real.sqrt ((sumSq a : ℚ) : ℝ) * Real.sqrt ((sumSq b : ℚ) : ℝ))

/-- C7: cosine similarity is symmetric, always lies in [-1, 1], returns 0 whenever
either vector is empty, the lengths differ, or either norm is 0, and in the remaining
case its divisor is provably nonzero (no division by zero). -/
theorem cosineSimilarity_spec (a b : List ℚ) :
    cosineSimilarity a b = cosineSimilarity b a ∧
    -1 ≤ cosineSimilarity a b ∧ cosineSimilarity a b ≤ 1 ∧
    (a.length = 0 ∨ b.length = 0 ∨ a.length ≠ b.length ∨ sumSq a = 0 ∨ sumSq b = 0 →
      cosineSimilarity a b = 0) ∧
    (¬(a.length = 0 ∨ b.length = 0 ∨ a.length ≠ b.length) →
      ¬(sumSq a = 0 ∨ sumSq b = 0) →
      Real.sqrt ((sumSq a : ℚ) : ℝ) * Real.sqrt ((sumSq b : ℚ) : ℝ) ≠ 0) := by
  by_cases hg : a.length = 0 ∨ b.length = 0 ∨ a.length ≠ b.length
  · have hga : cosineSimilarity a b = 0 := by unfold cosineSimilarity; rw [if_pos hg]
    have hg2 : b.length = 0 ∨ a.length = 0 ∨ b.length ≠ a.length := by tauto
    have hgb : cosineSimilarity b a = 0 := by unfold cosineSimilarity; rw [if_pos hg2]
    exact ⟨by rw [hga, hgb], by rw [hga]; norm_num, by rw [hga]; norm_num,
      fun _ => hga, fun hc _ => absurd hg hc⟩
  · have hg2 : ¬(b.length = 0 ∨ a.length = 0 ∨ b.length ≠ a.length) := by tauto
    by_cases hz : sumSq a = 0 ∨ sumSq b = 0
    · have hga : cosineSimilarity a b = 0 := by
        unfold cosineSimilarity; rw [if_neg hg, if_pos hz]
      have hz2 : sumSq b = 0 ∨ sumSq a = 0 := by tauto
      have hgb : cosineSimilarity b a = 0 := by
        unfold cosineSimilarity; rw [if_neg hg2, if_pos hz2]
      exact ⟨by rw [hga, hgb], by rw [hga]; norm_num, by rw [hga]; norm_num,
        fun _ => hga, fun _ hc => absurd hz hc⟩
    · have hz2 : ¬(sumSq b = 0 ∨ sumSq a = 0) := by tauto
      have hza : sumSq a ≠ 0 := fun h => hz (Or.inl h)
      have hzb : sumSq b ≠ 0 := fun h => hz (Or.inr h)
      have hA : (0:ℝ) < ((sumSq a : ℚ) : ℝ) := by
        have h0 := sumSq_nonneg a
        have : (0:ℚ) < sumSq a := lt_of_le_of_ne h0 (Ne.symm hza)
        exact_mod_cast this
      have hB : (0:ℝ) < ((sumSq b : ℚ) : ℝ) := by
        have h0 := sumSq_nonneg b
        have : (0:ℚ) < sumSq b := lt_of_le_of_ne h0 (Ne.symm hzb)
        exact_mod_cast this
      have hsA : 0 < Real.sqrt ((sumSq a : ℚ) : ℝ) := Real.sqrt_pos.mpr hA
      have hsB : 0 < Real.sqrt ((sumSq b : ℚ) : ℝ) := Real.sqrt_pos.mpr hB
      have hden : 0 < Real.sqrt ((sumSq a : ℚ) : ℝ) * Real.sqrt ((sumSq b : ℚ) : ℝ) :=
        mul_pos hsA hsB
      have hcosab : cosineSimilarity a b =
          (dotProduct a b : ℝ) /
            (Real.sqrt ((sumSq a : ℚ) : ℝ) * Real.sqrt ((sumSq b : ℚ) : ℝ)) := by
        unfold cosineSimilarity; rw [if_neg hg, if_neg hz]
      have hcosba : cosineSimilarity b a =
          (dotProduct b a : ℝ) /
            (Real.sqrt ((sumSq b : ℚ) : ℝ) * Real.sqrt ((sumSq a : ℚ) : ℝ)) := by
        unfold cosineSimilarity; rw [if_neg hg2, if_neg hz2]
      have hcs : ((dotProduct a b : ℚ) : ℝ)^2 ≤ ((sumSq a : ℚ) : ℝ) * ((sumSq b : ℚ) : ℝ) := by
        exact_mod_cast dotProduct_sq_le a b
      have habs : |((dotProduct a b : ℚ) : ℝ)| ≤
          Real.sqrt (((sumSq a : ℚ) : ℝ) * ((sumSq b : ℚ) : ℝ)) := Real.abs_le_sqrt hcs
      rw [Real.sqrt_mul (le_of_lt hA)] at habs
      have hratio : |cosineSimilarity a b| ≤ 1 := by
        rw [hcosab, abs_div, abs_of_pos hden]
        exact (div_le_one hden).mpr habs
      have hbounds := abs_le.mp hratio
      refine ⟨?_, hbounds.1, hbounds.2, ?_, fun _ _ => ne_of_gt hden⟩
      · rw [hcosab, hcosba, dotProduct_comm, mul_comm]
      · intro h
        exfalso
        rcases h with h | h | h | h | h
        · exact hg (Or.inl h)
        · exact hg (Or.inr (Or.inl h))
        · exact hg (Or.inr (Or.inr h))
        · exact hza h
        · exact hzb h

/-- Witness for C7: the zero-guard case evaluated at the empty vector against [1]. -/
theorem cosineSimilarity_witness : cosineSimilarity [] [1] = 0 :=
  (cosineSimilarity_spec [] [1]).2.2.2.1 (Or.inl rfl)

/-- A JavaScript number: a finite value (modelled as an exact rational) or one of the
non-finite values NaN / Infinity / -Infinity that Number.isFinite rejects. -/
inductive JSNumber where
  | finite (q : ℚ)
  | nan
  | inf
  | negInf
deriving DecidableEq

/-- Number.isFinite on the modelled numbers. -/
def jsIsFinite : JSNumber → Bool
  | JSNumber.finite _ => true
  | _ => false

/-- Number.prototype.toString on the modelled numbers; finite values render through
the exact rational. -/
def jsNumToString : JSNumber → String
  | JSNumber.finite q => toString q
  | JSNumber.nan => "NaN"
  | JSNumber.inf => "Infinity"
  | JSNumber.negInf => "-Infinity"

/-- The vector.map((n, index) => ...) validation loop of toPgVectorString
(src/lib/vector-utils.ts lines 77-82): throw at the first non-finite component
(reporting its index), otherwise collect the rendered components. -/
def validateComponents : List JSNumber → Nat → Except String (List String)
  | [], _ => Except.ok []
  | n :: rest, i =>
    if jsIsFinite n then
      match validateComponents rest (i + 1) with
      | Except.ok tail => Except.ok (jsNumToString n :: tail)
      | Except.error e => Except.error e
    else Except.error ("Invalid vector component at index " ++ toString i)

/-- toPgVectorString (src/lib/vector-utils.ts lines 71-85): error on an empty vector,
error at the first non-finite component, otherwise the bracketed comma-joined
rendering of the components. -/
def toPgVectorString (vector : List JSNumber) : Except String String :=
  if vector.isEmpty then Except.error "Vector must be a non-empty array"
  else
    match validateComponents vector 0 with
    | Except.error e => Except.error e
    | Except.ok validated =>
      Except.ok ("[" ++ String.intercalate "," validated ++ "]")

lemma validateComponents_ok {l : List JSNumber} (h : ∀ n ∈ l, jsIsFinite n = true) :
    ∀ i, validateComponents l i = Except.ok (l.map jsNumToString) := by
  induction l with
  | nil => intro i; rfl
  | cons n rest ih =>
    intro i
    have hn := h n (List.mem_cons_self n rest)
    have hrest := ih (fun x hx => h x (List.mem_cons_of_mem n hx))
    simp [validateComponents, hn, hrest (i + 1)]

lemma validateComponents_error {l : List JSNumber} :
    ∀ i, (∃ n ∈ l, jsIsFinite n = false) →
      ∃ e, validateComponents l i = Except.error e := by
  induction l with
  | nil =>
    intro i h
    obtain ⟨n, hn, _⟩ := h
    exact absurd hn (List.not_mem_nil n)
  | cons m rest ih =>
    intro i h
    by_cases hm : jsIsFinite m
    · have hrest : ∃ n ∈ rest, jsIsFinite n = false := by
        obtain ⟨n, hn, hfin⟩ := h
        rcases List.mem_cons.mp hn with rfl | hn2
        · rw [hm] at hfin; cases hfin
        · exact ⟨n, hn2, hfin⟩
      obtain ⟨e, he⟩ := ih (i + 1) hrest
      refine ⟨e, ?_⟩
      simp [validateComponents, hm, he]
    · refine ⟨"Invalid vector component at index " ++ toString i, ?_⟩
      simp [validateComponents, hm]

/-- C8 (amended): the vector-literal gate fails exactly when the vector is empty or
some component is non-finite; on every non-empty all-finite vector it returns the
bracketed comma-joined rendering without failing. -/
theorem toPgVectorString_spec (v : List JSNumber) :
    ((∃ e, toPgVectorString v = Except.error e) ↔
      v = [] ∨ ∃ n ∈ v, jsIsFinite n = false) ∧
    (v ≠ [] → (∀ n ∈ v, jsIsFinite n = true) →
      toPgVectorString v =
        Except.ok ("[" ++ String.intercalate "," (v.map jsNumToString) ++ "]")) := by
  by_cases hv : v = []
  · subst hv
    refine ⟨⟨fun _ => Or.inl rfl, fun _ => ⟨"Vector must be a non-empty array", rfl⟩⟩,
      fun hc _ => absurd rfl hc⟩
  · have hne : ¬ v.isEmpty = true := by
      cases v with
      | nil => exact absurd rfl hv
      | cons a l => simp
    constructor
    · constructor
      · rintro ⟨e, he⟩
        right
        by_contra hall
        push_neg at hall
        have hfin : ∀ n ∈ v, jsIsFinite n = true := by
          intro n hn
          have := hall n hn
          cases hfn : jsIsFinite n
          · exact absurd hfn this
          · rfl
        rw [toPgVectorString, if_neg hne, validateComponents_ok hfin 0] at he
        cases he
      · rintro (rfl | hex)
        · exact absurd rfl hv
        · obtain ⟨e, he⟩ := validateComponents_error 0 hex
          refine ⟨e, ?_⟩
          rw [toPgVectorString, if_neg hne, he]
    · intro _ hfin
      rw [toPgVectorString, if_neg hne, validateComponents_ok hfin 0]

/-- C8 counterexample: the empty vector has no non-finite component, yet the gate
fails on it ("Vector must be a non-empty array"), refuting the claimed "fails if and
only if some component is non-finite". -/
theorem toPgVectorString_counterexample :
    toPgVectorString [] = Except.error "Vector must be a non-empty array" ∧
    ([] : List JSNumber).all jsIsFinite = true := by
  exact ⟨rfl, rfl⟩

/-- Concrete finite vector used to witness the C8 theorem. -/
def exVec : List JSNumber := [JSNumber.finite 1, JSNumber.finite (-2)]

/-- Witness for C8 at a concrete non-empty all-finite vector. -/
theorem toPgVectorString_spec_witness :
    toPgVectorString exVec =
      Except.ok ("[" ++ String.intercalate "," (exVec.map jsNumToString) ++ "]") :=
  (toPgVectorString_spec exVec).2 (by decide) (by decide)

/-- A parsed JSON value (result of JSON.parse).  Object contents are never inspected
by the modelled read path, so objects are collapsed to a single constructor. -/
inductive JsValue where
  | null
  | bool (b : Bool)
  | num (n : JSNumber)
  | str (s : String)
  | arr (elems : List JsValue)
  | obj

/-- JavaScript Number() coercion on parsed JSON values: null coerces to 0, booleans to
0/1, numbers to themselves; coercion of strings, arrays and objects (which
round-trips through string conversion) is delegated to the parameter toNumOther. -/
def jsToNumber (toNumOther : JsValue → JSNumber) : JsValue → JSNumber
  | JsValue.null => JSNumber.finite 0
  | JsValue.bool b => JSNumber.finite (if b then 1 else 0)
  | JsValue.num n => n
  | v => toNumOther v

/-- JavaScript (x || 0) on a number: NaN (and 0 itself) is falsy and replaced by 0;
Infinity and -Infinity are truthy and kept. -/
def orZero : JSNumber → JSNumber
  | JSNumber.nan => JSNumber.finite 0
  | n => n

/-- parseVector (src/lib/vector-utils.ts lines 42-52): JSON.parse (external, the
parameter jp) inside try/catch; on success an array maps elementwise through
Number(v) || 0, any non-array value yields [], and a parse exception yields []. -/
def parseVector (jp : String → Except String JsValue) (toNumOther : JsValue → JSNumber)
    (json : String) : List JSNumber :=
  match jp json with
  | Except.error _ => []
  | Except.ok v =>
    match v with
    | JsValue.arr xs => xs.map (fun x => orZero (jsToNumber toNumOther x))
    | _ => []

/-- C10 (amended): parseVector is total — a parse failure or a non-array value yields
[], and a parsed array is mapped elementwise through JavaScript Number() coercion with
falsy results replaced by 0; in particular every element whose coercion is NaN becomes
0 (but e.g. booleans coerce to 0/1, not necessarily 0). -/
theorem parseVector_spec (jp : String → Except String JsValue)
    (tno : JsValue → JSNumber) (s : String) :
    (∀ e, jp s = Except.error e → parseVector jp tno s = []) ∧
    (∀ v, jp s = Except.ok v → (∀ xs, v ≠ JsValue.arr xs) → parseVector jp tno s = []) ∧
    (∀ xs, jp s = Except.ok (JsValue.arr xs) →
      parseVector jp tno s = xs.map (fun x => orZero (jsToNumber tno x)) ∧
      ∀ x ∈ xs, jsToNumber tno x = JSNumber.nan →
        orZero (jsToNumber tno x) = JSNumber.finite 0) := by
  refine ⟨fun e he => ?_, fun v hv hnarr => ?_, fun xs hxs => ⟨?_, fun x _ hx => ?_⟩⟩
  · rw [parseVector, he]
  · rw [parseVector, hv]
    cases v with
    | arr elems => exact absurd rfl (hnarr elems)
    | null => rfl
    | bool b => rfl
    | num n => rfl
    | str t => rfl
    | obj => rfl
  · rw [parseVector, hxs]
  · rw [hx]
    rfl

/-- A concrete stand-in for JSON.parse used in the C10 counterexample and witness:
parses "[true]" to the array [true] and fails on everything else. -/
def exJsonParse : String → Except String JsValue :=
  fun s =>
    if s = "[true]" then Except.ok (JsValue.arr [JsValue.bool true])
    else Except.error "Unexpected token"

/-- A concrete stand-in for the delegated Number() cases in the C10 counterexample. -/
def exToNumOther : JsValue → JSNumber := fun _ => JSNumber.nan

/-- C10 counterexample: "[true]" parses as a JSON array whose element is non-numeric,
yet parseVector coerces it to 1 (JavaScript Number(true) = 1), not to 0 as the claim
states for non-numeric elements. -/
theorem parseVector_counterexample :
    parseVector exJsonParse exToNumOther "[true]" = [JSNumber.finite 1] ∧
    JSNumber.finite 1 ≠ JSNumber.finite 0 := by
  refine ⟨rfl, by decide⟩

/-- Witness for C10: the malformed-input case evaluated at a concrete string. -/
theorem parseVector_spec_witness : parseVector exJsonParse exToNumOther "oops" = [] :=
  (parseVector_spec exJsonParse exToNumOther "oops").1 "Unexpected token" (by rfl)

/-- One row of the combined CTE of searchMessagesHybrid
(src/lib/memory/memory-rag-enhanced.ts): message id, COALESCEd semantic score,
COALESCEd keyword rank, and the fused combined score. -/
structure CombinedRow where
  mid : Nat
  semantic : ℚ
  keyword : ℚ
  combined : ℚ
deriving DecidableEq

/-- COALESCE(score, 0): the score of a message id on one side of the join, or 0 when
that side did not match the message. -/
def lookupScore (rows : List (Nat × ℚ)) (i : Nat) : ℚ :=
  match rows.find? (fun p => p.1 == i) with
  | some p => p.2
  | none => 0

/-- Whether a side of the join produced a row for the given message id. -/
def hasKey (rows : List (Nat × ℚ)) (i : Nat) : Bool :=
  rows.any (fun p => p.1 == i)

/-- FULL OUTER JOIN of the semantic_search and keyword_search CTE rows on message_id:
matched and left-only rows from the semantic side, plus right-only rows from the
keyword side; the missing side contributes 0. -/
def fullOuterRows (sem kw : List (Nat × ℚ)) : List (Nat × ℚ × ℚ) :=
  sem.map (fun p => (p.1, p.2, lookupScore kw p.1)) ++
    (kw.filter (fun p => !(hasKey sem p.1))).map (fun p => (p.1, 0, p.2))

/-- The combined CTE: joined rows scored with
semantic_score * 0.7 + keyword_rank * 0.3. -/
def combinedRows (sem kw : List (Nat × ℚ)) : List CombinedRow :=
  (fullOuterRows sem kw).map (fun t => ⟨t.1, t.2.1, t.2.2, t.2.1 * 0.7 + t.2.2 * 0.3⟩)

/-- ORDER BY combined_score DESC as a relation on combined rows. -/
def hybridOrder (a b : CombinedRow) : Prop := b.combined ≤ a.combined

instance : DecidableRel hybridOrder :=
  fun a b => inferInstanceAs (Decidable (b.combined ≤ a.combined))

instance : IsTotal CombinedRow hybridOrder := ⟨fun a b => le_total b.combined a.combined⟩

instance : IsTrans CombinedRow hybridOrder := ⟨fun _ _ _ h1 h2 => le_trans h2 h1⟩

/-- The final SELECT of the hybrid search: combined rows ordered by fused score
descending, LIMIT maxResults.  The two per-side inner queries run in the database and
are abstracted as the input row lists. -/
def searchMessagesHybridRows (sem kw : List (Nat × ℚ)) (maxResults : Nat) :
    List CombinedRow :=
  (List.insertionSort hybridOrder (combinedRows sem kw)).take maxResults

lemma lookupScore_eq {rows : List (Nat × ℚ)} (h : (rows.map Prod.fst).Nodup) :
    ∀ {i : Nat} {s : ℚ}, (i, s) ∈ rows → lookupScore rows i = s := by
  induction rows with
  | nil => intro i s hmem; exact absurd hmem (List.not_mem_nil _)
  | cons p rest ih =>
    intro i s hmem
    rw [List.map_cons, List.nodup_cons] at h
    by_cases hpi : p.1 = i
    · have hps : p = (i, s) := by
        rcases List.mem_cons.mp hmem with heq | hmem2
        · exact heq.symm
        · exfalso
          apply h.1
          rw [hpi]
          exact List.mem_map.mpr ⟨(i, s), hmem2, rfl⟩
      unfold lookupScore
      rw [List.find?_cons_of_pos _ (by simp [hpi]), hps]
    · have hmem2 : (i, s) ∈ rest := by
        rcases List.mem_cons.mp hmem with heq | hmem2
        · exact absurd (by rw [← heq]) hpi
        · exact hmem2
      unfold lookupScore
      rw [List.find?_cons_of_neg _ (by simp [hpi])]
      exact ih h.2 hmem2

lemma lookupScore_of_not_hasKey {rows : List (Nat × ℚ)} {i : Nat}
    (h : hasKey rows i = false) : lookupScore rows i = 0 := by
  unfold lookupScore
  rw [List.find?_eq_none.mpr]
  intro x hx
  have := (List.any_eq_false.mp h) x hx
  simp at this ⊢
  exact this

lemma combinedRows_score {sem kw : List (Nat × ℚ)} (hsem : (sem.map Prod.fst).Nodup)
    (hkw : (kw.map Prod.fst).Nodup) :
    ∀ r ∈ combinedRows sem kw,
      r.semantic = lookupScore sem r.mid ∧ r.keyword = lookupScore kw r.mid ∧
      r.combined = 0.7 * r.semantic + 0.3 * r.keyword := by
  intro r hr
  obtain ⟨t, ht, rfl⟩ := List.mem_map.mp hr
  rcases List.mem_append.mp ht with hts | htk
  · obtain ⟨p, hp, rfl⟩ := List.mem_map.mp hts
    refine ⟨?_, rfl, by ring⟩
    exact (lookupScore_eq hsem (by exact hp)).symm
  · obtain ⟨p, hp, rfl⟩ := List.mem_map.mp htk
    have hfilter := List.mem_filter.mp hp
    refine ⟨?_, ?_, by ring⟩
    · have : hasKey sem p.1 = false := by
        have := hfilter.2
        simpa using this
      exact (lookupScore_of_not_hasKey this).symm
    · exact (lookupScore_eq hkw (by exact hfilter.1)).symm

/-- C3: every returned row's fused score is exactly 0.7 times its semantic score plus
0.3 times its keyword rank with a missing side contributing 0; the result is ordered
by fused score descending, holds at most maxResults rows, and is the top of the fused
set (every fused row left out scores no higher than any returned row). -/
theorem searchMessagesHybrid_fusion (sem kw : List (Nat × ℚ)) (maxResults : Nat)
    (hsem : (sem.map Prod.fst).Nodup) (hkw : (kw.map Prod.fst).Nodup) :
    (∀ r ∈ searchMessagesHybridRows sem kw maxResults,
      r.semantic = lookupScore sem r.mid ∧ r.keyword = lookupScore kw r.mid ∧
      r.combined = 0.7 * r.semantic + 0.3 * r.keyword) ∧
    List.Sorted hybridOrder (searchMessagesHybridRows sem kw maxResults) ∧
    (searchMessagesHybridRows sem kw maxResults).length ≤ maxResults ∧
    (∀ r ∈ combinedRows sem kw, r ∉ searchMessagesHybridRows sem kw maxResults →
      ∀ r2 ∈ searchMessagesHybridRows sem kw maxResults, r.combined ≤ r2.combined) := by
  have hsorted : List.Sorted hybridOrder (List.insertionSort hybridOrder (combinedRows sem kw)) :=
    List.sorted_insertionSort hybridOrder (combinedRows sem kw)
  refine ⟨?_, ?_, ?_, ?_⟩
  · intro r hr
    have hr2 : r ∈ List.insertionSort hybridOrder (combinedRows sem kw) :=
      (List.take_sublist _ _).subset hr
    have hr3 : r ∈ combinedRows sem kw := (List.mem_insertionSort hybridOrder).mp hr2
    exact combinedRows_score hsem hkw r hr3
  · exact hsorted.sublist (List.take_sublist _ _)
  · rw [searchMessagesHybridRows, List.length_take]
    exact min_le_left _ _
  · intro r hr hnot r2 hr2
    have hrs : r ∈ List.insertionSort hybridOrder (combinedRows sem kw) :=
      (List.mem_insertionSort hybridOrder).mpr hr
    have hsplit : List.insertionSort hybridOrder (combinedRows sem kw) =
        List.take maxResults (List.insertionSort hybridOrder (combinedRows sem kw)) ++
          List.drop maxResults (List.insertionSort hybridOrder (combinedRows sem kw)) :=
      (List.take_append_drop _ _).symm
    have hrd : r ∈ List.drop maxResults (List.insertionSort hybridOrder (combinedRows sem kw)) := by
      rw [hsplit] at hrs
      rcases List.mem_append.mp hrs with h | h
      · exact absurd h hnot
      · exact h
    have hpair := hsorted
    rw [hsplit] at hpair
    exact (List.pairwise_append.mp hpair).2.2 r2 hr2 r hrd

/-- Concrete semantic-side rows for the C3 witness. -/
def exSem : List (Nat × ℚ) := [(1, 0.9)]

/-- Concrete keyword-side rows for the C3 witness. -/
def exKw : List (Nat × ℚ) := [(2, 0.5)]

/-- Witness for C3 at concrete one-row sides. -/
theorem searchMessagesHybrid_fusion_witness :
    (exSem.map Prod.fst).Nodup ∧ (exKw.map Prod.fst).Nodup ∧
    List.Sorted hybridOrder (searchMessagesHybridRows exSem exKw 1) ∧
    (searchMessagesHybridRows exSem exKw 1).length ≤ 1 :=
  ⟨by decide, by decide,
    (searchMessagesHybrid_fusion exSem exKw 1 (by decide) (by decide)).2.1,
    (searchMessagesHybrid_fusion exSem exKw 1 (by decide) (by decide)).2.2.1⟩

/-- A chat_messages row as selected in the RAG queries (role and content). -/
structure MessageRow where
  role : String
  content : String
deriving DecidableEq

/-- rowToMessage (src/lib/memory/memory-rag-enhanced.ts): rows with role "human"
become HumanMessage, everything else AIMessage. -/
def rowToMessage (r : MessageRow) : ChatMessage :=
  if r.role = "human" then ⟨MsgType.human, r.content⟩ else ⟨MsgType.ai, r.content⟩

/-- Environment of searchRelevantContextEnhanced: the embedding-config flag, the
sanitizer (ChatValidator, out of scope), the external embedding service, and the
database/LLM phase (parallel hybrid + memory search, combination, optional
compression) that runs after a successful embedding. -/
structure EnhancedRagEnv where
  embeddingEnabled : Bool
  sanitize : String → String
  embedText : String → Except String (List ℚ)
  searchPhase : String → QueryParams → List ℚ → Except String (List ChatMessage)

/-- searchRelevantContextEnhanced (src/lib/memory/memory-rag-enhanced.ts lines
570-634): [] when embeddings are disabled or the sanitized message is blank; analyze
query complexity; on an embedding failure (the catch at lines 596-599) or an empty
embedding return []; on a search failure return []; otherwise the searched context. -/
def searchRelevantContextEnhanced (env : EnhancedRagEnv)
    (sessionId currentMessage : String) : List ChatMessage :=
  if !env.embeddingEnabled then [] else
  let sanitized := env.sanitize currentMessage
  if (trimChars sanitized.toList).isEmpty then [] else
  let queryParams := analyzeQueryComplexity sanitized
  match env.embedText sanitized with
  | Except.error _ => []
  | Except.ok vector =>
    if vector.length = 0 then []
    else
      match env.searchPhase sessionId queryParams vector with
      | Except.error _ => []
      | Except.ok contextMessages => contextMessages

/-- Environment of the original searchRelevantContext (the version with the
recent-history fallback, src/lib/memory/memory-rag-enhanced.ts lines 663-778): also
carries the prisma.chatMessage.findMany query for the session's 3 most recent turns
(newest first) and the unified single-query semantic search. -/
structure LegacyRagEnv where
  embeddingEnabled : Bool
  sanitize : String → String
  embedText : String → Except String (List ℚ)
  recentMessagesDesc : String → Except String (List MessageRow)
  semanticSearch : String → List ℚ → Except String (List ChatMessage)

/-- searchRelevantContext (lines 663-778): like the enhanced version, except that when
the embedding call throws it falls back to the session's own most recent turns,
reversed into chronological order (lines 683-697); only when that fallback query also
fails does it return []. -/
def searchRelevantContext (env : LegacyRagEnv)
    (sessionId currentMessage : String) : List ChatMessage :=
  if !env.embeddingEnabled then [] else
  let sanitized := env.sanitize currentMessage
  if (trimChars sanitized.toList).isEmpty then [] else
  match env.embedText sanitized with
  | Except.error _ =>
    match env.recentMessagesDesc sessionId with
    | Except.ok recentMessages => recentMessages.reverse.map rowToMessage
    | Except.error _ => []
  | Except.ok vector =>
    if vector.length = 0 then []
    else
      match env.semanticSearch sessionId vector with
      | Except.error _ => []
      | Except.ok contextMessages => contextMessages

/-- C4 (amended): when the embedding call throws, the enhanced entry point
searchRelevantContextEnhanced (the one wired into the chat route) swallows the error
and returns the empty context, while only the original searchRelevantContext falls
back to the querying session's own most recent turns in chronological order. -/
theorem ragEmbeddingFailure_spec (eenv : EnhancedRagEnv) (lenv : LegacyRagEnv)
    (sessionId msg e1 e2 : String) (rows : List MessageRow) :
    (eenv.embeddingEnabled = true →
      ¬ (trimChars (eenv.sanitize msg).toList).isEmpty = true →
      eenv.embedText (eenv.sanitize msg) = Except.error e1 →
      searchRelevantContextEnhanced eenv sessionId msg = []) ∧
    (lenv.embeddingEnabled = true →
      ¬ (trimChars (lenv.sanitize msg).toList).isEmpty = true →
      lenv.embedText (lenv.sanitize msg) = Except.error e2 →
      lenv.recentMessagesDesc sessionId = Except.ok rows →
      searchRelevantContext lenv sessionId msg = rows.reverse.map rowToMessage) := by
  constructor
  · intro hen hblank hembed
    rw [searchRelevantContextEnhanced]
    simp only [hen, Bool.not_true, Bool.false_eq_true, if_false]
    rw [if_neg hblank, hembed]
  · intro hen hblank hembed hrows
    rw [searchRelevantContext]
    simp only [hen, Bool.not_true, Bool.false_eq_true, if_false]
    rw [if_neg hblank, hembed, hrows]

/-- The enhanced-retrieval environment of the C4 counterexample: embeddings enabled,
identity sanitizer, an embedding service that always throws. -/
def exEnhancedEnv : EnhancedRagEnv :=
  { embeddingEnabled := true
    sanitize := fun s => s
    embedText := fun _ => Except.error "embedding model unavailable"
    searchPhase := fun _ _ _ => Except.ok [] }

/-- C4 counterexample: with the embedding call throwing, the production entry point
searchRelevantContextEnhanced returns the empty context — not a context built from
the session's most recent 3 turns as claimed. -/
theorem ragEmbeddingFailure_counterexample :
    searchRelevantContextEnhanced exEnhancedEnv "session-1" "what did we decide" = [] := by
  rfl

/-- The legacy-retrieval environment of the C4 witness: the embedding call throws and
the fallback query returns two rows (newest first). -/
def exLegacyEnv : LegacyRagEnv :=
  { embeddingEnabled := true
    sanitize := fun s => s
    embedText := fun _ => Except.error "embedding model unavailable"
    recentMessagesDesc := fun _ =>
      Except.ok [⟨"ai", "second turn"⟩, ⟨"human", "first turn"⟩]
    semanticSearch := fun _ _ => Except.ok [] }

/-- Witness for the amended C4 at concrete environments. -/
theorem ragEmbeddingFailure_spec_witness :
    searchRelevantContextEnhanced exEnhancedEnv "session-1" "hello" = [] ∧
    searchRelevantContext exLegacyEnv "session-1" "hello" =
      ([⟨"ai", "second turn"⟩, ⟨"human", "first turn"⟩] : List MessageRow).reverse.map
        rowToMessage :=
  ⟨(ragEmbeddingFailure_spec exEnhancedEnv exLegacyEnv "session-1" "hello"
      "embedding model unavailable" "embedding model unavailable" []).1
      rfl (by decide) rfl,
    (ragEmbeddingFailure_spec exEnhancedEnv exLegacyEnv "session-1" "hello"
      "embedding model unavailable" "embedding model unavailable"
      [⟨"ai", "second turn"⟩, ⟨"human", "first turn"⟩]).2
      rfl (by decide) rfl rfl⟩

/-- Environment of the saveMemories stage: whether prisma.userMemory.create succeeds
for a fact, the external embedding service, and whether the raw embedding INSERT
succeeds for a memory id. -/
structure SaveEnv where
  createOk : String → Bool
  embedText : String → Except String (List JSNumber)
  insertOk : Nat → Bool

/-- Database state threaded through the save loop: created Memory rows (id, content),
written embedding rows (memory id, pgvector literal), and the next fresh row id. -/
structure SaveState where
  memories : List (Nat × String)
  embeddings : List (Nat × String)
  nextId : Nat
deriving DecidableEq

/-- One iteration of the saveMemories loop (src/lib/agents/memory-graph.ts lines
412-438), whose whole body sits in the per-fact try/catch: create the Memory row (on
failure the fact is skipped); generate the embedding (on failure the row stays and
the embedding is skipped); for a non-empty vector, render it through the
toPgVectorString gate and insert the embedding row (on either failure the row stays
and the embedding is skipped). -/
def saveMemoriesStep (env : SaveEnv) (st : SaveState) (fact : String) : SaveState :=
  if env.createOk fact then
    let mid := st.nextId
    let st1 : SaveState := ⟨st.memories ++ [(mid, fact)], st.embeddings, mid + 1⟩
    match env.embedText fact with
    | Except.error _ => st1
    | Except.ok vector =>
      if 0 < vector.length then
        match toPgVectorString vector with
        | Except.error _ => st1
        | Except.ok vectorString =>
          if env.insertOk mid then
            ⟨st1.memories, st1.embeddings ++ [(mid, vectorString)], st1.nextId⟩
          else st1
      else st1
  else st

/-- saveMemories (src/lib/agents/memory-graph.ts lines 404-441): no-op on an empty
fact list, otherwise the per-fact loop over the whole batch; never an error. -/
def saveMemories (env : SaveEnv) (st : SaveState) (extractedFacts : List String) :
    SaveState :=
  if extractedFacts.length = 0 then st
  else extractedFacts.foldl (saveMemoriesStep env) st

lemma saveMemoriesStep_memories (env : SaveEnv) (st : SaveState) (fact : String) :
    (env.createOk fact = false ∧ (saveMemoriesStep env st fact).memories = st.memories) ∨
    (env.createOk fact = true ∧
      (saveMemoriesStep env st fact).memories = st.memories ++ [(st.nextId, fact)]) := by
  by_cases hc : env.createOk fact
  · right
    refine ⟨hc, ?_⟩
    rw [saveMemoriesStep, if_pos hc]
    cases env.embedText fact with
    | error e => rfl
    | ok vector =>
      by_cases hl : 0 < vector.length
      · simp only [if_pos hl]
        cases toPgVectorString vector with
        | error e => rfl
        | ok vs =>
          by_cases hi : env.insertOk st.nextId
          · simp [if_pos hi]
          · simp [if_neg hi]
      · simp only [if_neg hl]
  · left
    refine ⟨by simpa using hc, ?_⟩
    rw [saveMemoriesStep, if_neg hc]

lemma saveMemoriesStep_mono (env : SaveEnv) (st : SaveState) (fact : String) :
    ∀ p ∈ st.memories, p ∈ (saveMemoriesStep env st fact).memories := by
  intro p hp
  rcases saveMemoriesStep_memories env st fact with ⟨_, h⟩ | ⟨_, h⟩
  · rw [h]; exact hp
  · rw [h]; exact List.mem_append_left _ hp

lemma saveMemories_foldl_mono (env : SaveEnv) :
    ∀ (facts : List String) (st : SaveState) (p : Nat × String), p ∈ st.memories →
      p ∈ (facts.foldl (saveMemoriesStep env) st).memories := by
  intro facts
  induction facts with
  | nil => intro st p hp; exact hp
  | cons g rest ih =>
    intro st p hp
    exact ih _ p (saveMemoriesStep_mono env st g p hp)

/-- C5: every fact of the batch whose Memory creation succeeds ends up as a Memory
row in the final state, regardless of any other fact's failure (for example an
embedding call throwing mid-batch); rows present before the batch are never removed;
and the save stage is a total function (it never propagates an error). -/
theorem saveMemories_spec (env : SaveEnv) (st : SaveState) (facts : List String) :
    (∀ f ∈ facts, env.createOk f = true →
      ∃ mid, (mid, f) ∈ (saveMemories env st facts).memories) ∧
    (∀ p ∈ st.memories, p ∈ (saveMemories env st facts).memories) := by
  rw [saveMemories]
  by_cases hz : facts.length = 0
  · have hfe : facts = [] := List.length_eq_zero.mp hz
    subst hfe
    refine ⟨fun f hf => absurd hf (List.not_mem_nil f), fun p hp => ?_⟩
    simpa using hp
  · rw [if_neg hz]
    constructor
    · have main : ∀ (fs : List String) (s : SaveState) (f : String), f ∈ fs →
          env.createOk f = true →
          ∃ mid, (mid, f) ∈ (fs.foldl (saveMemoriesStep env) s).memories := by
        intro fs
        induction fs with
        | nil => intro s f hf; exact absurd hf (List.not_mem_nil f)
        | cons g rest ih =>
          intro s f hf hok
          rcases List.mem_cons.mp hf with rfl | hf2
          · refine ⟨s.nextId, ?_⟩
            apply saveMemories_foldl_mono env rest
            rcases saveMemoriesStep_memories env s f with ⟨hbad, _⟩ | ⟨_, h⟩
            · rw [hok] at hbad; cases hbad
            · rw [h]; exact List.mem_append_right _ (List.mem_singleton_self _)
          · exact ih _ f hf2 hok
      exact fun f hf hok => main facts st f hf hok
    · exact fun p hp => saveMemories_foldl_mono env facts st p hp

/-- The save-stage environment of the C5 witness: creation always succeeds, the
embedding call throws exactly on the second fact, inserts succeed. -/
def exSaveEnv : SaveEnv :=
  { createOk := fun _ => true
    embedText := fun f =>
      if f = "fact two" then Except.error "embedding failed"
      else Except.ok [JSNumber.finite 1]
    insertOk := fun _ => true }

/-- Witness for C5 at the claim's own scenario — three facts where the second one's
embedding call throws: all three Memory rows exist (creation succeeded for each) and
the embedding rows exist exactly for facts one and three. -/
theorem saveMemories_spec_witness :
    (∃ mid, (mid, "fact three") ∈
      (saveMemories exSaveEnv ⟨[], [], 0⟩ ["fact one", "fact two", "fact three"]).memories) ∧
    (saveMemories exSaveEnv ⟨[], [], 0⟩ ["fact one", "fact two", "fact three"]).memories =
      [(0, "fact one"), (1, "fact two"), (2, "fact three")] ∧
    (saveMemories exSaveEnv ⟨[], [], 0⟩ ["fact one", "fact two", "fact three"]).embeddings =
      [(0, "[1]"), (2, "[1]")] :=
  ⟨(saveMemories_spec exSaveEnv ⟨[], [], 0⟩ ["fact one", "fact two", "fact three"]).1
      "fact three" (by decide) rfl,
    by decide, by decide⟩

/-- External call kinds traced by the extract stage. -/
inductive Effect where
  | dbQuery
  | llmCall
deriving DecidableEq

/-- A user_memories row as selected for the extraction prompt context. -/
structure MemoryRow where
  content : String
  category : String
  confidence : ℚ

/-- Environment of the extractFacts stage: the existing memories fetched for prompt
context, the structured-output LLM call (modelled as the facts array it resolves to,
result.facts with a missing field already defaulted to []), the free-text fallback
LLM call, and JSON.parse-plus-Array.isArray on the regex-matched fragment (ok none
models a parsed non-array, error a parse exception). -/
structure ExtractEnv where
  existingMemories : List MemoryRow
  structuredInvoke : Except String (List String)
  fallbackInvoke : Except String String
  jsonParseStrings : String → Except String (Option (List String))

/-- The first bracketed fragment of a string — content.match with the non-greedy
bracket regex of src/lib/agents/memory-graph.ts line 188: from the first opening
square bracket through the first closing square bracket after it, or none. -/
def firstBracketed (s : String) : Option String :=
  let cs := s.toList
  let rest := cs.dropWhile (fun c => c ≠ '[')
  match rest with
  | [] => none
  | _ :: after =>
    if (after.takeWhile (fun c => c ≠ ']')).length = after.length then none
    else some (String.mk ('[' :: after.takeWhile (fun c => c ≠ ']') ++ [']']))

/-- extractFacts (src/lib/agents/memory-graph.ts lines 58-200): empty input returns
no facts immediately, before the memory fetch and any model call; otherwise the
existing memories are fetched (a database query) and the structured call runs (an
LLM call); on its failure the free-text fallback runs once (a second LLM call) and a
JSON array is regex-extracted from its output; every failure path ends in an empty
fact list, never an error.  The second component is the trace of external calls. -/
def extractFacts (env : ExtractEnv) (recentMessages : List ChatMessage) :
    List String × List Effect :=
  if recentMessages.isEmpty then ([], [])
  else
    match env.structuredInvoke with
    | Except.ok facts => (facts, [Effect.dbQuery, Effect.llmCall])
    | Except.error _ =>
      match env.fallbackInvoke with
      | Except.ok content =>
        match firstBracketed content with
        | some jsonText =>
          match env.jsonParseStrings jsonText with
          | Except.ok (some facts) =>
            (facts, [Effect.dbQuery, Effect.llmCall, Effect.llmCall])
          | Except.ok none => ([], [Effect.dbQuery, Effect.llmCall, Effect.llmCall])
          | Except.error _ => ([], [Effect.dbQuery, Effect.llmCall, Effect.llmCall])
        | none => ([], [Effect.dbQuery, Effect.llmCall, Effect.llmCall])
      | Except.error _ => ([], [Effect.dbQuery, Effect.llmCall, Effect.llmCall])

/-- C6: on an empty recent-message list the extract stage returns no facts and an
empty external-call trace (no LLM call, no database query); and when both the
structured call and the fallback call fail, it returns an empty fact list instead of
an error. -/
theorem extractFacts_spec (env : ExtractEnv) (recentMessages : List ChatMessage) :
    (recentMessages = [] → extractFacts env recentMessages = ([], [])) ∧
    (∀ e1 e2, env.structuredInvoke = Except.error e1 →
      env.fallbackInvoke = Except.error e2 →
      (extractFacts env recentMessages).1 = []) := by
  constructor
  · intro h
    subst h
    rfl
  · intro e1 e2 h1 h2
    rw [extractFacts]
    by_cases hE : recentMessages.isEmpty
    · rw [if_pos hE]
    · rw [if_neg hE, h1, h2]

/-- The extract-stage environment of the C6 witness: both model calls fail. -/
def exExtractEnv : ExtractEnv :=
  { existingMemories := []
    structuredInvoke := Except.error "schema validation failed"
    fallbackInvoke := Except.error "model unavailable"
    jsonParseStrings := fun _ => Except.ok none }

/-- Witness for C6: empty input yields no facts and no external calls; total model
failure on a non-empty input still yields an empty fact list. -/
theorem extractFacts_spec_witness :
    extractFacts exExtractEnv [] = ([], []) ∧
    (extractFacts exExtractEnv [⟨MsgType.human, "hi there"⟩]).1 = [] :=
  ⟨(extractFacts_spec exExtractEnv []).1 rfl,
    (extractFacts_spec exExtractEnv [⟨MsgType.human, "hi there"⟩]).2
      "schema validation failed" "model unavailable" rfl rfl⟩

end Reflecta
